import Mathlib

/-!
Shallow embedding of the `FHEAuction` contract (sealed-bid auction orchestrator
over an encrypted-arithmetic engine) and proofs of its specification claims.

The engine is modelled by append-only stores of plaintext values indexed by
handles: `FHE.asEuint32`, `FHE.fromExternal`, `FHE.gt`, `FHE.select`, `FHE.add`,
`FHE.le` each allocate a fresh handle whose stored value is the plaintext
semantics of the ciphertext the real engine would produce.  The access-control
list is a list of (handle, principal) grants, extended by `FHE.allow` /
`FHE.allowThis` and never shrunk.
-/

namespace FHEAuction

/-- Modulus of the `euint32` value domain. -/
def U32 : Nat := 2 ^ 32

/-- Modulus of the `euint64` value domain. -/
def U64 : Nat := 2 ^ 64

/-- Modulus of the `eaddress` value domain (160-bit addresses). -/
def UADDR : Nat := 2 ^ 160

/-- Handle to an encrypted 32-bit value (`euint32`): an index into the engine's
32-bit store. -/
structure H32 where
  idx : Nat
deriving DecidableEq

/-- Handle to an encrypted 64-bit value (`euint64`). -/
structure H64 where
  idx : Nat
deriving DecidableEq

/-- Handle to an encrypted address (`eaddress`). -/
structure HAddr where
  idx : Nat
deriving DecidableEq

/-- Handle to an encrypted boolean (`ebool`). -/
structure HBool where
  idx : Nat
deriving DecidableEq

/-- A principal that can be granted decryption capability: the contract itself
(`FHE.allowThis`) or an external address (`FHE.allow(h, addr)`). -/
inductive Principal where
  | core
  | addr (a : Nat)
deriving DecidableEq

/-- Type-tagged reference to a handle, used as the key of ACL grants. -/
inductive HRef where
  | h32 (i : Nat)
  | h64 (i : Nat)
  | haddr (i : Nat)
  | hbool (i : Nat)
deriving DecidableEq

/-- State of the encrypted-arithmetic engine: one append-only value store per
ciphertext type, plus the capability-grant list. -/
structure FHEState where
  store32 : List Nat
  store64 : List Nat
  storeAddr : List Nat
  storeBool : List Bool
  acl : List (HRef × Principal)
deriving DecidableEq

/-- Plaintext value represented by a `euint32` handle. -/
def FHEState.get32 (f : FHEState) (h : H32) : Nat :=
  f.store32.getD h.idx 0

/-- Plaintext value represented by a `euint64` handle. -/
def FHEState.get64 (f : FHEState) (h : H64) : Nat :=
  f.store64.getD h.idx 0

/-- Plaintext value represented by an `eaddress` handle. -/
def FHEState.getAddr (f : FHEState) (h : HAddr) : Nat :=
  f.storeAddr.getD h.idx 0

/-- Plaintext value represented by an `ebool` handle. -/
def FHEState.getBool (f : FHEState) (h : HBool) : Bool :=
  f.storeBool.getD h.idx false

/-- `FHE.asEuint32`: trivially encrypt a plaintext 32-bit value, allocating a
fresh handle. -/
def FHEState.asEuint32 (f : FHEState) (v : Nat) : H32 × FHEState :=
  (⟨f.store32.length⟩, { f with store32 := f.store32 ++ [v % U32] })

/-- `FHE.asEuint64`: trivially encrypt a plaintext 64-bit value. -/
def FHEState.asEuint64 (f : FHEState) (v : Nat) : H64 × FHEState :=
  (⟨f.store64.length⟩, { f with store64 := f.store64 ++ [v % U64] })

/-- `FHE.asEaddress`: trivially encrypt an address. -/
def FHEState.asEaddress (f : FHEState) (v : Nat) : HAddr × FHEState :=
  (⟨f.storeAddr.length⟩, { f with storeAddr := f.storeAddr ++ [v % UADDR] })

/-- `FHE.fromExternal(inputEuint32, inputProof)`: import an external ciphertext
whose well-formedness proof has been accepted by the engine; `v` is the 32-bit
value the proven ciphertext represents.  (A rejected proof aborts the whole
transaction before any state is touched, so only accepted imports are
modelled.) -/
def FHEState.fromExternal (f : FHEState) (v : Nat) : H32 × FHEState :=
  (⟨f.store32.length⟩, { f with store32 := f.store32 ++ [v % U32] })

/-- `FHE.gt(x, y)`: encrypted strict comparison `x > y` on `euint32`. -/
def FHEState.fheGt (f : FHEState) (x y : H32) : HBool × FHEState :=
  (⟨f.storeBool.length⟩,
   { f with storeBool := f.storeBool ++ [decide (f.get32 y < f.get32 x)] })

/-- `FHE.le(x, y)`: encrypted comparison `x <= y` on `euint64`. -/
def FHEState.fheLe (f : FHEState) (x y : H64) : HBool × FHEState :=
  (⟨f.storeBool.length⟩,
   { f with storeBool := f.storeBool ++ [decide (f.get64 x ≤ f.get64 y)] })

/-- `FHE.add(x, y)`: encrypted wrapping addition on `euint64`. -/
def FHEState.fheAdd (f : FHEState) (x y : H64) : H64 × FHEState :=
  (⟨f.store64.length⟩,
   { f with store64 := f.store64 ++ [(f.get64 x + f.get64 y) % U64] })

/-- `FHE.select(c, x, y)` on `euint32`: oblivious selection, allocating a fresh
handle representing `x`'s value if `c` holds and `y`'s value otherwise. -/
def FHEState.select32 (f : FHEState) (c : HBool) (x y : H32) : H32 × FHEState :=
  (⟨f.store32.length⟩,
   { f with store32 := f.store32 ++ [if f.getBool c then f.get32 x else f.get32 y] })

/-- `FHE.select(c, x, y)` on `eaddress`. -/
def FHEState.selectAddr (f : FHEState) (c : HBool) (x y : HAddr) : HAddr × FHEState :=
  (⟨f.storeAddr.length⟩,
   { f with storeAddr := f.storeAddr ++ [if f.getBool c then f.getAddr x else f.getAddr y] })

/-- `FHE.select(c, x, y)` on `euint64`. -/
def FHEState.select64 (f : FHEState) (c : HBool) (x y : H64) : H64 × FHEState :=
  (⟨f.store64.length⟩,
   { f with store64 := f.store64 ++ [if f.getBool c then f.get64 x else f.get64 y] })

/-- `FHE.allow(handle, principal)` / `FHE.allowThis(handle)`: record a
capability grant.  Grants are only ever added, never removed. -/
def FHEState.allow (f : FHEState) (r : HRef) (p : Principal) : FHEState :=
  { f with acl := (r, p) :: f.acl }

/-- The `Auction` struct of the contract. -/
structure Auction where
  name : String
  startPrice : H32
  highestBid : H32
  highestBidder : HAddr
  lastBidTime : H64
  createdAt : Nat
  created : Bool

/-- Zero-initialized `Auction` record, as a Solidity mapping yields for an
absent key (`created = false`). -/
def emptyAuction : Auction :=
  { name := ""
    startPrice := ⟨0⟩
    highestBid := ⟨0⟩
    highestBidder := ⟨0⟩
    lastBidTime := ⟨0⟩
    createdAt := 0
    created := false }

/-- Full contract state: the id counter, the auction mapping, and the engine
state (value stores and ACL). -/
structure ContractState where
  auctionCount : Nat
  auctions : Nat → Auction
  fhe : FHEState

/-- The error taxonomy of the core (`require(..., "AUCTION_NOT_FOUND")`). -/
inductive Err where
  | NotFound
deriving DecidableEq

/-- Decrypted value of an auction's `highestBid` field. -/
def ContractState.bidVal (s : ContractState) (id : Nat) : Nat :=
  s.fhe.get32 (s.auctions id).highestBid

/-- Decrypted value of an auction's `highestBidder` field. -/
def ContractState.bidderVal (s : ContractState) (id : Nat) : Nat :=
  s.fhe.getAddr (s.auctions id).highestBidder

/-- Decrypted value of an auction's `lastBidTime` field. -/
def ContractState.timeVal (s : ContractState) (id : Nat) : Nat :=
  s.fhe.get64 (s.auctions id).lastBidTime

/-- `createAuction(name, startPrice)`: allocates id `auctionCount + 1`, stores
the record with `highestBid := encStart` (the same handle), bidder sentinel 0,
`lastBidTime := encrypt(uint64(block.timestamp))`, then `FHE.allowThis` on the
four encrypted fields.  `now` is `block.timestamp`. -/
def createAuction (s : ContractState) (nm : String) (startPrice : Nat) (now : Nat) :
    Nat × ContractState :=
  let id := s.auctionCount + 1
  let r1 := s.fhe.asEuint32 startPrice
  let encStart := r1.1
  let encHighest := encStart
  let r2 := r1.2.asEaddress 0
  let encBidder := r2.1
  let r3 := r2.2.asEuint64 now
  let encNow := r3.1
  let a : Auction :=
    { name := nm
      startPrice := encStart
      highestBid := encHighest
      highestBidder := encBidder
      lastBidTime := encNow
      createdAt := now
      created := true }
  let f4 := r3.2.allow (HRef.h32 a.startPrice.idx) Principal.core
  let f5 := f4.allow (HRef.h32 a.highestBid.idx) Principal.core
  let f6 := f5.allow (HRef.haddr a.highestBidder.idx) Principal.core
  let f7 := f6.allow (HRef.h64 a.lastBidTime.idx) Principal.core
  (id, { auctionCount := id
         auctions := fun i => if i = id then a else s.auctions i
         fhe := f7 })

/-- `getAuctionInfo(id)`: public metadata; reverts with NotFound when the
record does not exist. -/
def getAuctionInfo (s : ContractState) (id : Nat) : Except Err (String × Nat) :=
  if (s.auctions id).created then
    Except.ok ((s.auctions id).name, (s.auctions id).createdAt)
  else Except.error Err.NotFound

/-- `getEncryptedHighestBid(id)`: the raw `euint32` handle; no ACL change. -/
def getEncryptedHighestBid (s : ContractState) (id : Nat) : Except Err H32 :=
  if (s.auctions id).created then Except.ok (s.auctions id).highestBid
  else Except.error Err.NotFound

/-- `getEncryptedHighestBidder(id)`: the raw `eaddress` handle; no ACL change. -/
def getEncryptedHighestBidder (s : ContractState) (id : Nat) : Except Err HAddr :=
  if (s.auctions id).created then Except.ok (s.auctions id).highestBidder
  else Except.error Err.NotFound

/-- `bid(id, inputEuint32, inputProof)` by `sender` at time `now`, where `v` is
the 32-bit value of the (proof-accepted) external ciphertext.  Mirrors the
source line by line: import, `FHE.gt`, three `FHE.select`s gated by the same
`isHighest`, `FHE.allowThis` on the three replacement handles, `FHE.allow` of
`isHighest` and the three fields to the caller. -/
def bid (s : ContractState) (id : Nat) (v : Nat) (sender : Nat) (now : Nat) :
    Except Err (HBool × ContractState) :=
  if (s.auctions id).created then
    let a := s.auctions id
    let r1 := s.fhe.fromExternal v
    let encBid := r1.1
    let r2 := r1.2.fheGt encBid a.highestBid
    let isHighest := r2.1
    let r3 := r2.2.select32 isHighest encBid a.highestBid
    let newBid := r3.1
    let r4 := r3.2.asEaddress sender
    let encSender := r4.1
    let r5 := r4.2.selectAddr isHighest encSender a.highestBidder
    let newBidder := r5.1
    let r6 := r5.2.asEuint64 now
    let encNow := r6.1
    let r7 := r6.2.select64 isHighest encNow a.lastBidTime
    let newTime := r7.1
    let f8 := r7.2.allow (HRef.h32 newBid.idx) Principal.core
    let f9 := f8.allow (HRef.haddr newBidder.idx) Principal.core
    let f10 := f9.allow (HRef.h64 newTime.idx) Principal.core
    let f11 := f10.allow (HRef.hbool isHighest.idx) (Principal.addr sender)
    let f12 := f11.allow (HRef.h32 newBid.idx) (Principal.addr sender)
    let f13 := f12.allow (HRef.haddr newBidder.idx) (Principal.addr sender)
    let f14 := f13.allow (HRef.h64 newTime.idx) (Principal.addr sender)
    let a' : Auction :=
      { a with highestBid := newBid, highestBidder := newBidder, lastBidTime := newTime }
    Except.ok (isHighest,
      { auctionCount := s.auctionCount
        auctions := fun i => if i = id then a' else s.auctions i
        fhe := f14 })
  else Except.error Err.NotFound

/-- `checkEnded(id)` by `sender` at time `now`: computes
`ended = (lastBidTime + 600) <= now` with engine arithmetic and grants the
result to the caller. -/
def checkEnded (s : ContractState) (id : Nat) (sender : Nat) (now : Nat) :
    Except Err (HBool × ContractState) :=
  if (s.auctions id).created then
    let a := s.auctions id
    let r1 := s.fhe.asEuint64 600
    let c600 := r1.1
    let r2 := r1.2.fheAdd a.lastBidTime c600
    let deadline := r2.1
    let r3 := r2.2.asEuint64 now
    let encNow := r3.1
    let r4 := r3.2.fheLe deadline encNow
    let ended := r4.1
    let f5 := r4.2.allow (HRef.hbool ended.idx) (Principal.addr sender)
    Except.ok (ended, { s with fhe := f5 })
  else Except.error Err.NotFound

/-- One caller-facing state-mutating operation with its plaintext parameters. -/
inductive Op where
  | create (nm : String) (startPrice : Nat) (now : Nat)
  | bidOp (id : Nat) (v : Nat) (sender : Nat) (now : Nat)
  | checkOp (id : Nat) (sender : Nat) (now : Nat)

/-- Transaction semantics of one operation: a reverted call leaves the state
unchanged. -/
def step (s : ContractState) : Op → ContractState
  | Op.create nm p now => (createAuction s nm p now).2
  | Op.bidOp id v sender now =>
      match bid s id v sender now with
      | Except.ok r => r.2
      | Except.error _ => s
  | Op.checkOp id sender now =>
      match checkEnded s id sender now with
      | Except.ok r => r.2
      | Except.error _ => s

/-- Deployment state: empty registry, empty engine stores, empty ACL. -/
def initState : ContractState :=
  { auctionCount := 0
    auctions := fun _ => emptyAuction
    fhe := { store32 := [], store64 := [], storeAddr := [], storeBool := [], acl := [] } }

/-- States reachable from deployment by any sequence of operations. -/
inductive Reachable : ContractState → Prop
  | init : Reachable initState
  | step (s : ContractState) (op : Op) : Reachable s → Reachable (step s op)

/-- The handles stored in an existing auction record point inside the engine's
stores (holds in every reachable state; appended stores keep them stable). -/
def WFA (s : ContractState) (id : Nat) : Prop :=
  (s.auctions id).highestBid.idx < s.fhe.store32.length ∧
  (s.auctions id).highestBidder.idx < s.fhe.storeAddr.length ∧
  (s.auctions id).lastBidTime.idx < s.fhe.store64.length

instance (s : ContractState) (id : Nat) : Decidable (WFA s id) := by
  unfold WFA; infer_instance

theorem getD_append_lt {α : Type} (l m : List α) (i : Nat) (d : α) (h : i < l.length) :
    (l ++ m).getD i d = l.getD i d := by
  simp [List.getD, List.getElem?_append_left h]

theorem getD_append_len {α : Type} (l m : List α) (v d : α) :
    (l ++ v :: m).getD l.length d = v := by
  simp [List.getD, List.getElem?_append_right (Nat.le_refl l.length)]

/-- Effect of a successful `bid` on the decrypted leader triple: the returned
boolean is `oldBid < v mod 2^32`, and the three fields either all take the new
bid's (value, sender, time) or all keep their old values, according to that
same boolean. -/
theorem bid_values (s : ContractState) (id v sender now : Nat)
    (hc : (s.auctions id).created = true)
    (h32 : (s.auctions id).highestBid.idx < s.fhe.store32.length)
    (ha : (s.auctions id).highestBidder.idx < s.fhe.storeAddr.length)
    (h64 : (s.auctions id).lastBidTime.idx < s.fhe.store64.length) :
    ∃ h s', bid s id v sender now = Except.ok (h, s') ∧
      s'.fhe.getBool h = decide (s.bidVal id < v % U32) ∧
      s'.bidVal id = (if s.bidVal id < v % U32 then v % U32 else s.bidVal id) ∧
      s'.bidderVal id = (if s.bidVal id < v % U32 then sender % UADDR else s.bidderVal id) ∧
      s'.timeVal id = (if s.bidVal id < v % U32 then now % U64 else s.timeVal id) ∧
      (s'.auctions id).created = true ∧
      (s'.auctions id).highestBid.idx < s'.fhe.store32.length ∧
      (s'.auctions id).highestBidder.idx < s'.fhe.storeAddr.length ∧
      (s'.auctions id).lastBidTime.idx < s'.fhe.store64.length ∧
      s'.auctionCount = s.auctionCount := by
  simp only [bid, hc, if_true, FHEState.fromExternal, FHEState.fheGt, FHEState.select32,
    FHEState.selectAddr, FHEState.select64, FHEState.asEaddress, FHEState.asEuint64,
    FHEState.allow]
  refine ⟨_, _, rfl, ?_, ?_, ?_, ?_, ?_, ?_, ?_, ?_, ?_⟩
  all_goals
    simp only [ContractState.bidVal, ContractState.bidderVal, ContractState.timeVal,
      FHEState.get32, FHEState.get64, FHEState.getAddr, FHEState.getBool,
      eq_self_iff_true, if_true, getD_append_len, getD_append_lt, h32, ha, h64,
      decide_eq_true_eq, hc]
  all_goals simp only [List.length_append, List.length_cons, List.length_nil]
  all_goals omega

/-- Effect of `createAuction` on the new record: the id is `auctionCount + 1`
and the decrypted leader triple starts at `(startPrice, 0, creation time)`. -/
theorem create_values (s : ContractState) (nm : String) (p t0 : Nat) :
    (createAuction s nm p t0).1 = s.auctionCount + 1 ∧
    ((createAuction s nm p t0).2.auctions (s.auctionCount + 1)).created = true ∧
    (createAuction s nm p t0).2.bidVal (s.auctionCount + 1) = p % U32 ∧
    (createAuction s nm p t0).2.bidderVal (s.auctionCount + 1) = 0 ∧
    (createAuction s nm p t0).2.timeVal (s.auctionCount + 1) = t0 % U64 ∧
    ((createAuction s nm p t0).2.auctions (s.auctionCount + 1)).highestBid.idx
      < (createAuction s nm p t0).2.fhe.store32.length ∧
    ((createAuction s nm p t0).2.auctions (s.auctionCount + 1)).highestBidder.idx
      < (createAuction s nm p t0).2.fhe.storeAddr.length ∧
    ((createAuction s nm p t0).2.auctions (s.auctionCount + 1)).lastBidTime.idx
      < (createAuction s nm p t0).2.fhe.store64.length := by
  refine ⟨rfl, ?_, ?_, ?_, ?_, ?_, ?_, ?_⟩
  all_goals
    simp only [createAuction, FHEState.asEuint32, FHEState.asEaddress, FHEState.asEuint64,
      FHEState.allow, ContractState.bidVal, ContractState.bidderVal, ContractState.timeVal,
      FHEState.get32, FHEState.get64, FHEState.getAddr,
      eq_self_iff_true, if_true, getD_append_len, Nat.zero_mod]
  all_goals simp only [List.length_append, List.length_cons, List.length_nil]
  all_goals omega

/-- Run a list of `bid` transactions `(value, sender, time)` against auction
`id`. -/
def runBids (s : ContractState) (id : Nat) : List (Nat × Nat × Nat) → ContractState
  | [] => s
  | b :: rest => runBids (step s (Op.bidOp id b.1 b.2.1 b.2.2)) id rest

/-- Reference leader computation: fold a bid list over the decrypted
`(highestBid, highestBidder, lastBidTime)` triple, replacing the whole triple
exactly when the bid value is strictly greater. -/
def leaderFold : Nat × Nat × Nat → List (Nat × Nat × Nat) → Nat × Nat × Nat
  | st, [] => st
  | st, b :: rest =>
      leaderFold
        (if st.1 < b.1 % U32 then (b.1 % U32, b.2.1 % UADDR, b.2.2 % U64) else st) rest

/-- The subsequence of bid values that were strictly greater than the running
leader at their own submission time (starting leader `l`). -/
def acceptedGreater : Nat → List Nat → List Nat
  | _, [] => []
  | l, v :: rest =>
      if l < v % U32 then (v % U32) :: acceptedGreater (v % U32) rest
      else acceptedGreater l rest

theorem leaderFold_fst_max (bids : List (Nat × Nat × Nat)) (st : Nat × Nat × Nat) :
    (leaderFold st bids).1
      = (acceptedGreater st.1 (bids.map Prod.fst)).foldl max st.1 := by
  induction bids generalizing st with
  | nil => rfl
  | cons b rest ih =>
      by_cases hlt : st.1 < b.1 % U32
      · simp only [leaderFold, acceptedGreater, List.map, hlt, if_true, List.foldl_cons]
        rw [ih]
        simp [Nat.max_eq_right (Nat.le_of_lt hlt)]
      · simp only [leaderFold, acceptedGreater, List.map, hlt, if_false]
        exact ih st

/-- Invariant transport along a sequence of bids: the decrypted leader triple
after `runBids` is exactly `leaderFold` of the starting triple. -/
theorem runBids_values (bids : List (Nat × Nat × Nat)) (s : ContractState) (id : Nat)
    (hc : (s.auctions id).created = true)
    (h32 : (s.auctions id).highestBid.idx < s.fhe.store32.length)
    (ha : (s.auctions id).highestBidder.idx < s.fhe.storeAddr.length)
    (h64 : (s.auctions id).lastBidTime.idx < s.fhe.store64.length) :
    ((runBids s id bids).bidVal id, (runBids s id bids).bidderVal id,
      (runBids s id bids).timeVal id)
      = leaderFold (s.bidVal id, s.bidderVal id, s.timeVal id) bids := by
  induction bids generalizing s with
  | nil => rfl
  | cons b rest ih =>
      obtain ⟨h, s', hbid, _, h1, h2, h3, hc', w1, w2, w3, _⟩ :=
        bid_values s id b.1 b.2.1 b.2.2 hc h32 ha h64
      have hstep : step s (Op.bidOp id b.1 b.2.1 b.2.2) = s' := by
        simp [step, hbid]
      have htriple : (s'.bidVal id, s'.bidderVal id, s'.timeVal id)
          = (if s.bidVal id < b.1 % U32 then (b.1 % U32, b.2.1 % UADDR, b.2.2 % U64)
             else (s.bidVal id, s.bidderVal id, s.timeVal id)) := by
        rw [h1, h2, h3]
        by_cases hcond : s.bidVal id < b.1 % U32 <;> simp [hcond]
      simp only [runBids, hstep, leaderFold]
      rw [ih s' hc' w1 w2 w3, htriple]

/-- C1: for any auction and any sequence of bids accepted for evaluation on
it, after each bid the decrypted `highestBid` equals the maximum of the start
price and all bid values submitted so far that were strictly greater than the
leader at their own submission, and `highestBidder` / `lastBidTime` hold the
submitter and submission time of that maximum (or the zero sentinel and the
creation time while no bid has exceeded the start price). -/
theorem bid_leader_correct (s0 : ContractState) (nm : String) (p t0 : Nat)
    (bids : List (Nat × Nat × Nat)) :
    ((runBids (createAuction s0 nm p t0).2 (createAuction s0 nm p t0).1 bids).bidVal
        (createAuction s0 nm p t0).1,
     (runBids (createAuction s0 nm p t0).2 (createAuction s0 nm p t0).1 bids).bidderVal
        (createAuction s0 nm p t0).1,
     (runBids (createAuction s0 nm p t0).2 (createAuction s0 nm p t0).1 bids).timeVal
        (createAuction s0 nm p t0).1)
      = leaderFold (p % U32, 0, t0 % U64) bids ∧
    (leaderFold (p % U32, 0, t0 % U64) bids).1
      = (acceptedGreater (p % U32) (bids.map Prod.fst)).foldl max (p % U32) := by
  obtain ⟨hid, hc, hbv, hav, htv, h32, ha, h64⟩ := create_values s0 nm p t0
  constructor
  · rw [hid]
    rw [runBids_values bids _ _ hc h32 ha h64, hbv, hav, htv]
  · exact leaderFold_fst_max bids _

/-- C2: a bid whose value equals the current decrypted `highestBid` leaves the
decrypted `highestBid`, `highestBidder`, `lastBidTime` unchanged and its
returned encrypted boolean represents false. -/
theorem bid_tie_keeps_incumbent (s : ContractState) (id v sender now : Nat)
    (hc : (s.auctions id).created = true) (hwf : WFA s id)
    (heq : v % U32 = s.bidVal id) :
    ∃ h s', bid s id v sender now = Except.ok (h, s') ∧
      s'.fhe.getBool h = false ∧
      s'.bidVal id = s.bidVal id ∧
      s'.bidderVal id = s.bidderVal id ∧
      s'.timeVal id = s.timeVal id := by
  obtain ⟨h32, ha, h64⟩ := hwf
  obtain ⟨h, s', hbid, hB, h1, h2, h3, _⟩ := bid_values s id v sender now hc h32 ha h64
  refine ⟨h, s', hbid, ?_, ?_, ?_, ?_⟩
  · rw [hB, heq]; simp
  · rw [h1, heq]; simp
  · rw [h2, heq]; simp
  · rw [h3, heq]; simp

/-- C6: the three leader fields are mutated together under the same selection
condition: every successful bid either moves all three to the new bid's
value, sender and time (returned boolean true, strictly greater bid) or
leaves all three decrypted values unchanged (returned boolean false). -/
theorem bid_atomic_triple (s : ContractState) (id v sender now : Nat)
    (hc : (s.auctions id).created = true) (hwf : WFA s id) :
    ∃ h s', bid s id v sender now = Except.ok (h, s') ∧
      ((s'.fhe.getBool h = true ∧ s.bidVal id < v % U32 ∧
        s'.bidVal id = v % U32 ∧ s'.bidderVal id = sender % UADDR ∧
        s'.timeVal id = now % U64) ∨
       (s'.fhe.getBool h = false ∧ ¬ s.bidVal id < v % U32 ∧
        s'.bidVal id = s.bidVal id ∧ s'.bidderVal id = s.bidderVal id ∧
        s'.timeVal id = s.timeVal id)) := by
  obtain ⟨h32, ha, h64⟩ := hwf
  obtain ⟨h, s', hbid, hB, h1, h2, h3, _⟩ := bid_values s id v sender now hc h32 ha h64
  refine ⟨h, s', hbid, ?_⟩
  by_cases hcond : s.bidVal id < v % U32
  · exact Or.inl ⟨by rw [hB]; simp [hcond], hcond,
      by rw [h1]; simp [hcond], by rw [h2]; simp [hcond], by rw [h3]; simp [hcond]⟩
  · exact Or.inr ⟨by rw [hB]; simp [hcond], hcond,
      by rw [h1]; simp [hcond], by rw [h2]; simp [hcond], by rw [h3]; simp [hcond]⟩

/-- C3: every operation invoked on an id whose record has `created = false`
fails with NotFound, and the state (id counter, every auction record, engine
state) is left completely unchanged. -/
theorem notfound_closure (s : ContractState) (id : Nat)
    (hne : (s.auctions id).created = false) :
    getAuctionInfo s id = Except.error Err.NotFound ∧
    getEncryptedHighestBid s id = Except.error Err.NotFound ∧
    getEncryptedHighestBidder s id = Except.error Err.NotFound ∧
    (∀ v sender now, bid s id v sender now = Except.error Err.NotFound ∧
      step s (Op.bidOp id v sender now) = s) ∧
    (∀ sender now, checkEnded s id sender now = Except.error Err.NotFound ∧
      step s (Op.checkOp id sender now) = s) := by
  refine ⟨?_, ?_, ?_, fun v sender now => ⟨?_, ?_⟩, fun sender now => ⟨?_, ?_⟩⟩ <;>
    simp [getAuctionInfo, getEncryptedHighestBid, getEncryptedHighestBidder,
      bid, checkEnded, step, hne]

/-- C8: a successful bid leaves the target auction's `name`, `startPrice`,
`createdAt` and existence flag unchanged, leaves the id counter unchanged, and
leaves every other auction's record unchanged. -/
theorem bid_frame (s : ContractState) (id v sender now : Nat)
    (hc : (s.auctions id).created = true) :
    ∃ h s', bid s id v sender now = Except.ok (h, s') ∧
      (s'.auctions id).name = (s.auctions id).name ∧
      (s'.auctions id).startPrice = (s.auctions id).startPrice ∧
      (s'.auctions id).createdAt = (s.auctions id).createdAt ∧
      (s'.auctions id).created = (s.auctions id).created ∧
      s'.auctionCount = s.auctionCount ∧
      (∀ j, j ≠ id → s'.auctions j = s.auctions j) := by
  simp only [bid, hc, if_true]
  refine ⟨_, _, rfl, ?_, ?_, ?_, ?_, rfl, ?_⟩
  · simp
  · simp
  · simp
  · simp
  · intro j hj
    simp [hj]

theorem step_bid_preserves (s : ContractState) (id v sender now : Nat) :
    (step s (Op.bidOp id v sender now)).auctionCount = s.auctionCount ∧
    ∀ i, ((step s (Op.bidOp id v sender now)).auctions i).created
      = (s.auctions i).created := by
  by_cases hc : (s.auctions id).created = true
  · constructor
    · simp [step, bid, hc]
    · intro i
      by_cases hi : i = id
      · subst hi; simp [step, bid, hc]
      · simp [step, bid, hc, hi]
  · rw [Bool.not_eq_true] at hc
    constructor <;> simp [step, bid, hc]

theorem step_check_preserves (s : ContractState) (id sender now : Nat) :
    (step s (Op.checkOp id sender now)).auctionCount = s.auctionCount ∧
    (step s (Op.checkOp id sender now)).auctions = s.auctions := by
  by_cases hc : (s.auctions id).created = true
  · constructor <;> simp [step, checkEnded, hc]
  · rw [Bool.not_eq_true] at hc
    constructor <;> simp [step, checkEnded, hc]

theorem step_create_created (s : ContractState) (nm : String) (p now : Nat) :
    (step s (Op.create nm p now)).auctionCount = s.auctionCount + 1 ∧
    ∀ i, ((step s (Op.create nm p now)).auctions i).created
      = (if i = s.auctionCount + 1 then true else (s.auctions i).created) := by
  refine ⟨rfl, fun i => ?_⟩
  simp only [step, createAuction]
  by_cases hi : i = s.auctionCount + 1 <;> simp [hi]

/-- C4: in every reachable state the existing auction ids are exactly the
dense range `1..auctionCount` (so ids are strictly increasing, never reused,
and no auction with id 0 exists), and `createAuction` assigns the sequential
id `auctionCount + 1`. -/
theorem ids_dense (s : ContractState) (hs : Reachable s) :
    (∀ i, ((s.auctions i).created = true ↔ 1 ≤ i ∧ i ≤ s.auctionCount)) ∧
    (∀ s0 nm p now, (createAuction s0 nm p now).1 = s0.auctionCount + 1) := by
  refine ⟨?_, fun s0 nm p now => rfl⟩
  induction hs with
  | init =>
      intro i
      have h1 : (initState.auctions i).created = false := rfl
      have h2 : initState.auctionCount = 0 := rfl
      rw [h1, h2]
      simp
      omega
  | step s0 op hr ih =>
      cases op with
      | create nm p now =>
          intro i
          obtain ⟨hcount, hcreated⟩ := step_create_created s0 nm p now
          rw [hcount, hcreated i]
          by_cases hi : i = s0.auctionCount + 1
          · simp [hi]
          · simp only [hi, if_false]
            rw [ih i]
            omega
      | bidOp id v sender now =>
          intro i
          obtain ⟨hcount, hcreated⟩ := step_bid_preserves s0 id v sender now
          rw [hcount, hcreated i, ih i]
      | checkOp id sender now =>
          intro i
          obtain ⟨hcount, hrec⟩ := step_check_preserves s0 id sender now
          rw [hcount, hrec, ih i]

theorem length_lt_append_cons {α : Type} (l : List α) (v : α) (m : List α) :
    l.length < (l ++ v :: m).length := by
  simp only [List.length_append, List.length_cons]
  omega

theorem mod600 : (600 : Nat) % U64 = 600 := by decide

/-- Effect of a successful `checkEnded`: the returned boolean's value is the
wrapping 64-bit comparison `(lastBidTime + 600) mod 2^64 <= now mod 2^64`, and
no auction record or counter changes. -/
theorem checkEnded_values (s : ContractState) (id sender now : Nat)
    (hc : (s.auctions id).created = true)
    (h64 : (s.auctions id).lastBidTime.idx < s.fhe.store64.length) :
    ∃ h s', checkEnded s id sender now = Except.ok (h, s') ∧
      s'.fhe.getBool h = decide ((s.timeVal id + 600) % U64 ≤ now % U64) ∧
      s'.auctions = s.auctions ∧ s'.auctionCount = s.auctionCount := by
  simp only [checkEnded, hc, if_true, FHEState.asEuint64, FHEState.fheAdd,
    FHEState.fheLe, FHEState.allow]
  refine ⟨_, _, rfl, ?_, rfl, rfl⟩
  simp only [FHEState.getBool, FHEState.get64, ContractState.timeVal,
    getD_append_len, getD_append_lt, h64, length_lt_append_cons, mod600]

/-- C5: for every existing auction, `checkEnded` returns an encrypted boolean
equal to `(lastBidTime + 600) <= now` in the engine's 64-bit arithmetic,
recomputed at call time with the fixed 600-second window; the auction is left
unchanged, and two calls at different times can return different results. -/
theorem checkEnded_recompute :
    (∀ s id sender now, (s.auctions id).created = true →
      (s.auctions id).lastBidTime.idx < s.fhe.store64.length →
      ∃ h s', checkEnded s id sender now = Except.ok (h, s') ∧
        s'.fhe.getBool h = decide ((s.timeVal id + 600) % U64 ≤ now % U64) ∧
        s'.auctions = s.auctions) ∧
    (∃ h1 s1 h2 s2,
      checkEnded (createAuction initState "A" 0 0).2 1 7 10 = Except.ok (h1, s1) ∧
      checkEnded (createAuction initState "A" 0 0).2 1 7 600 = Except.ok (h2, s2) ∧
      s1.fhe.getBool h1 = false ∧ s2.fhe.getBool h2 = true) := by
  constructor
  · intro s id sender now hc h64
    obtain ⟨h, s', e, hb, hauc, _⟩ := checkEnded_values s id sender now hc h64
    exact ⟨h, s', e, hb, hauc⟩
  · exact ⟨_, _, _, _, rfl, rfl, by decide, by decide⟩

/-- C10: the deadline computed by `checkEnded` is the 64-bit wrapping sum
`(lastBidTime + 600) mod 2^64`, so for an auction whose `lastBidTime` value
exceeds `2^64 - 601` the ended flag is evaluated against the wrapped deadline
`lastBidTime + 600 - 2^64`, which differs from the true deadline. -/
theorem checkEnded_wrap (s : ContractState) (id sender now : Nat)
    (hc : (s.auctions id).created = true)
    (h64 : (s.auctions id).lastBidTime.idx < s.fhe.store64.length)
    (hlt : s.timeVal id < U64)
    (hbig : U64 - 601 < s.timeVal id) :
    ∃ h s', checkEnded s id sender now = Except.ok (h, s') ∧
      s'.fhe.getBool h = decide ((s.timeVal id + 600) % U64 ≤ now % U64) ∧
      (s.timeVal id + 600) % U64 = s.timeVal id + 600 - U64 ∧
      (s.timeVal id + 600) % U64 ≠ s.timeVal id + 600 := by
  obtain ⟨h, s', e, hb, _, _⟩ := checkEnded_values s id sender now hc h64
  have hU : U64 = 18446744073709551616 := by norm_num [U64]
  rw [hU] at hlt hbig
  refine ⟨h, s', e, hb, ?_, ?_⟩ <;> rw [hU] <;> omega

/-- C7: every successful bid re-authorizes the core on the three replacement
leader handles and authorizes the caller on the returned `isHighest` handle
and on the three updated leader fields before completing; `createAuction`
authorizes the core on all four encrypted fields it produces; and no
operation ever removes an ACL grant. -/
theorem grant_discipline :
    (∀ s id v sender now, (s.auctions id).created = true →
      ∃ h s', bid s id v sender now = Except.ok (h, s') ∧
        (HRef.h32 (s'.auctions id).highestBid.idx, Principal.core) ∈ s'.fhe.acl ∧
        (HRef.haddr (s'.auctions id).highestBidder.idx, Principal.core) ∈ s'.fhe.acl ∧
        (HRef.h64 (s'.auctions id).lastBidTime.idx, Principal.core) ∈ s'.fhe.acl ∧
        (HRef.hbool h.idx, Principal.addr sender) ∈ s'.fhe.acl ∧
        (HRef.h32 (s'.auctions id).highestBid.idx, Principal.addr sender) ∈ s'.fhe.acl ∧
        (HRef.haddr (s'.auctions id).highestBidder.idx, Principal.addr sender) ∈ s'.fhe.acl ∧
        (HRef.h64 (s'.auctions id).lastBidTime.idx, Principal.addr sender) ∈ s'.fhe.acl) ∧
    (∀ s nm p now,
      (HRef.h32 ((createAuction s nm p now).2.auctions
          (createAuction s nm p now).1).startPrice.idx,
        Principal.core) ∈ (createAuction s nm p now).2.fhe.acl ∧
      (HRef.h32 ((createAuction s nm p now).2.auctions
          (createAuction s nm p now).1).highestBid.idx,
        Principal.core) ∈ (createAuction s nm p now).2.fhe.acl ∧
      (HRef.haddr ((createAuction s nm p now).2.auctions
          (createAuction s nm p now).1).highestBidder.idx,
        Principal.core) ∈ (createAuction s nm p now).2.fhe.acl ∧
      (HRef.h64 ((createAuction s nm p now).2.auctions
          (createAuction s nm p now).1).lastBidTime.idx,
        Principal.core) ∈ (createAuction s nm p now).2.fhe.acl) ∧
    (∀ s op g, g ∈ s.fhe.acl → g ∈ (step s op).fhe.acl) := by
  refine ⟨?_, ?_, ?_⟩
  · intro s id v sender now hc
    simp only [bid, hc, if_true, FHEState.allow]
    refine ⟨_, _, rfl, ?_, ?_, ?_, ?_, ?_, ?_, ?_⟩ <;> simp
  · intro s nm p now
    refine ⟨?_, ?_, ?_, ?_⟩ <;>
      simp [createAuction, FHEState.allow, FHEState.asEuint32, FHEState.asEaddress,
        FHEState.asEuint64]
  · intro s op g hg
    cases op with
    | create nm p now =>
        simp [step, createAuction, FHEState.allow, FHEState.asEuint32,
          FHEState.asEaddress, FHEState.asEuint64, hg]
    | bidOp id v sender now =>
        by_cases hc : (s.auctions id).created = true
        · simp only [step, bid, hc, if_true, FHEState.allow, List.mem_cons]
          tauto
        · rw [Bool.not_eq_true] at hc
          simp [step, bid, hc, hg]
    | checkOp id sender now =>
        by_cases hc : (s.auctions id).created = true
        · simp only [step, checkEnded, hc, if_true, FHEState.allow, List.mem_cons]
          tauto
        · rw [Bool.not_eq_true] at hc
          simp [step, checkEnded, hc, hg]

/-- C9: `createAuction` initializes the record's `highestBid` to the very same
ciphertext handle as its `startPrice` (so the initial leader value is the
start price), `highestBidder` to an encryption of the zero address, and
`lastBidTime` to an encryption of the creation timestamp `createdAt`. -/
theorem create_init (s : ContractState) (nm : String) (p now : Nat) :
    ((createAuction s nm p now).2.auctions (createAuction s nm p now).1).highestBid
      = ((createAuction s nm p now).2.auctions (createAuction s nm p now).1).startPrice ∧
    (createAuction s nm p now).2.bidVal (createAuction s nm p now).1 = p % U32 ∧
    (createAuction s nm p now).2.bidderVal (createAuction s nm p now).1 = 0 ∧
    (createAuction s nm p now).2.timeVal (createAuction s nm p now).1 = now % U64 ∧
    ((createAuction s nm p now).2.auctions (createAuction s nm p now).1).createdAt
      = now := by
  obtain ⟨hid, _, hbv, hav, htv, _, _, _⟩ := create_values s nm p now
  refine ⟨?_, ?_, ?_, ?_, ?_⟩
  · simp [createAuction]
  · exact hbv
  · exact hav
  · exact htv
  · simp [createAuction]

/-- Witness for C2: bidding exactly the current highest value (100) on a fresh
auction changes nothing and returns an encrypted false. -/
theorem bid_tie_keeps_incumbent_witness :
    ∃ h s', bid (createAuction initState "A" 100 50).2 1 100 7 60 = Except.ok (h, s') ∧
      s'.fhe.getBool h = false ∧
      s'.bidVal 1 = (createAuction initState "A" 100 50).2.bidVal 1 ∧
      s'.bidderVal 1 = (createAuction initState "A" 100 50).2.bidderVal 1 ∧
      s'.timeVal 1 = (createAuction initState "A" 100 50).2.timeVal 1 :=
  bid_tie_keeps_incumbent (createAuction initState "A" 100 50).2 1 100 7 60
    (by decide) (by decide) (by decide)

/-- Witness for C3: every operation on id 999 of the deployment state fails
with NotFound and leaves the state untouched. -/
theorem notfound_closure_witness :
    getAuctionInfo initState 999 = Except.error Err.NotFound ∧
    getEncryptedHighestBid initState 999 = Except.error Err.NotFound ∧
    getEncryptedHighestBidder initState 999 = Except.error Err.NotFound ∧
    bid initState 999 5 7 60 = Except.error Err.NotFound ∧
    step initState (Op.bidOp 999 5 7 60) = initState ∧
    checkEnded initState 999 7 60 = Except.error Err.NotFound ∧
    step initState (Op.checkOp 999 7 60) = initState := by
  obtain ⟨a, b, c, d, e⟩ := notfound_closure initState 999 (by decide)
  exact ⟨a, b, c, (d 5 7 60).1, (d 5 7 60).2, (e 7 60).1, (e 7 60).2⟩

/-- Witness for C4: after one creation, id 1 exists and is within the dense
range, and creation assigned id `auctionCount + 1`. -/
theorem ids_dense_witness :
    (((step initState (Op.create "A" 100 5)).auctions 1).created = true ↔
      1 ≤ 1 ∧ 1 ≤ (step initState (Op.create "A" 100 5)).auctionCount) ∧
    (createAuction initState "A" 100 5).1 = initState.auctionCount + 1 := by
  obtain ⟨h1, h2⟩ :=
    ids_dense _ (Reachable.step initState (Op.create "A" 100 5) Reachable.init)
  exact ⟨h1 1, h2 initState "A" 100 5⟩

/-- Witness for C5: concrete evaluation of the general checkEnded formula. -/
theorem checkEnded_recompute_witness :
    ∃ h s', checkEnded (createAuction initState "A" 0 0).2 1 7 900 = Except.ok (h, s') ∧
      s'.fhe.getBool h
        = decide (((createAuction initState "A" 0 0).2.timeVal 1 + 600) % U64 ≤ 900 % U64) ∧
      s'.auctions = (createAuction initState "A" 0 0).2.auctions :=
  checkEnded_recompute.1 (createAuction initState "A" 0 0).2 1 7 900 (by decide) (by decide)

/-- Witness for C6: a strictly greater bid (150 over 100) moves all three
leader fields together. -/
theorem bid_atomic_triple_witness :
    ∃ h s', bid (createAuction initState "A" 100 50).2 1 150 7 60 = Except.ok (h, s') ∧
      ((s'.fhe.getBool h = true ∧
        (createAuction initState "A" 100 50).2.bidVal 1 < 150 % U32 ∧
        s'.bidVal 1 = 150 % U32 ∧ s'.bidderVal 1 = 7 % UADDR ∧
        s'.timeVal 1 = 60 % U64) ∨
       (s'.fhe.getBool h = false ∧
        ¬ (createAuction initState "A" 100 50).2.bidVal 1 < 150 % U32 ∧
        s'.bidVal 1 = (createAuction initState "A" 100 50).2.bidVal 1 ∧
        s'.bidderVal 1 = (createAuction initState "A" 100 50).2.bidderVal 1 ∧
        s'.timeVal 1 = (createAuction initState "A" 100 50).2.timeVal 1)) :=
  bid_atomic_triple (createAuction initState "A" 100 50).2 1 150 7 60 (by decide) (by decide)

/-- Witness for C7: the grants made by a concrete successful bid. -/
theorem grant_discipline_witness :
    ∃ h s', bid (createAuction initState "A" 100 50).2 1 150 7 60 = Except.ok (h, s') ∧
      (HRef.h32 (s'.auctions 1).highestBid.idx, Principal.core) ∈ s'.fhe.acl ∧
      (HRef.haddr (s'.auctions 1).highestBidder.idx, Principal.core) ∈ s'.fhe.acl ∧
      (HRef.h64 (s'.auctions 1).lastBidTime.idx, Principal.core) ∈ s'.fhe.acl ∧
      (HRef.hbool h.idx, Principal.addr 7) ∈ s'.fhe.acl ∧
      (HRef.h32 (s'.auctions 1).highestBid.idx, Principal.addr 7) ∈ s'.fhe.acl ∧
      (HRef.haddr (s'.auctions 1).highestBidder.idx, Principal.addr 7) ∈ s'.fhe.acl ∧
      (HRef.h64 (s'.auctions 1).lastBidTime.idx, Principal.addr 7) ∈ s'.fhe.acl :=
  grant_discipline.1 (createAuction initState "A" 100 50).2 1 150 7 60 (by decide)

/-- Witness for C8: a concrete successful bid keeps the target's metadata and
the record of another id unchanged. -/
theorem bid_frame_witness :
    ∃ h s', bid (createAuction initState "A" 100 50).2 1 150 7 60 = Except.ok (h, s') ∧
      (s'.auctions 1).name = ((createAuction initState "A" 100 50).2.auctions 1).name ∧
      (s'.auctions 1).startPrice
        = ((createAuction initState "A" 100 50).2.auctions 1).startPrice ∧
      (s'.auctions 1).createdAt
        = ((createAuction initState "A" 100 50).2.auctions 1).createdAt ∧
      (s'.auctions 1).created = ((createAuction initState "A" 100 50).2.auctions 1).created ∧
      s'.auctionCount = (createAuction initState "A" 100 50).2.auctionCount ∧
      s'.auctions 2 = (createAuction initState "A" 100 50).2.auctions 2 := by
  obtain ⟨h, s', e, h1, h2, h3, h4, h5, h6⟩ :=
    bid_frame (createAuction initState "A" 100 50).2 1 150 7 60 (by decide)
  exact ⟨h, s', e, h1, h2, h3, h4, h5, h6 2 (by decide)⟩

/-- Witness for C10: an auction whose last-bid time is 2^64 - 1 gets a wrapped
deadline that differs from the true one. -/
theorem checkEnded_wrap_witness :
    ∃ h s', checkEnded (createAuction initState "A" 0 (U64 - 1)).2 1 7 50
        = Except.ok (h, s') ∧
      s'.fhe.getBool h
        = decide (((createAuction initState "A" 0 (U64 - 1)).2.timeVal 1 + 600) % U64
            ≤ 50 % U64) ∧
      ((createAuction initState "A" 0 (U64 - 1)).2.timeVal 1 + 600) % U64
        = (createAuction initState "A" 0 (U64 - 1)).2.timeVal 1 + 600 - U64 ∧
      ((createAuction initState "A" 0 (U64 - 1)).2.timeVal 1 + 600) % U64
        ≠ (createAuction initState "A" 0 (U64 - 1)).2.timeVal 1 + 600 :=
  checkEnded_wrap (createAuction initState "A" 0 (U64 - 1)).2 1 7 50
    (by decide) (by decide) (by decide) (by decide)

end FHEAuction
